import Mathlib

/-!
Shallow embedding of the quantification subsystem of the PSEUDO repository
(`src/quantify/`): the radius lookup table (`resources.py`), the voxel bias
solver and the per-cell SNR rule (`aggregator.py`), the spatial ownership
index build and the per-voxel ownership query (`ownership_logic.py`), and
the significance model's empty-null guard (`statistical_model.py`).

Floating-point values are modelled as exact rationals (`ℚ`).  The one
operation that leaves `ℚ` is `np.std`, a square root; the solver here
returns the *square* of the standard deviation (`var` field), and every
statement about the standard deviation is phrased through `x ≥ 0 ∧ x ^ 2 =
var`, which determines it uniquely.
-/

/-! ### Python string primitives

The Python string methods used by the sources (`str.split("|")`,
`str.upper()`, `str.strip()`) are modelled structurally over the character
list of a `String`; on the ASCII identifiers this subsystem handles they
agree with the Python semantics. -/

/-- Python `s.split(sep)` for a one-character separator. -/
def pySplit (s : String) (sep : Char) : List String :=
  (s.toList.splitOn sep).map List.asString

/-- Python `s.upper()` (ASCII). -/
def pyUpper (s : String) : String :=
  (s.toList.map Char.toUpper).asString

/-- Python `s.strip()`: remove leading and trailing whitespace. -/
def pyStrip (s : String) : String :=
  (((s.toList.dropWhile Char.isWhitespace).reverse.dropWhile
      Char.isWhitespace).reverse).asString

/-! ### resources.py -/

/-- Embedding of `ATOM_RADII_DATA` from `src/quantify/resources.py`:
`{Element: {Resolution_Lower_Bound: Radius}}`.  Each profile is listed in
ascending threshold order, matching `sorted(profile.keys())` in
`get_atom_radius`. -/
def ATOM_RADII_DATA : List (String × List (ℚ × ℚ)) :=
  [ ("H",  [(1/2, 108/100), (1, 120/100), (3/2, 129/100), (2, 141/100), (5/2, 168/100), (3, 198/100)])
  , ("C",  [(1/2, 102/100), (1, 114/100), (3/2, 126/100), (2, 138/100), (5/2, 165/100), (3, 198/100)])
  , ("N",  [(1/2,  96/100), (1, 111/100), (3/2, 123/100), (2, 135/100), (5/2, 162/100), (3, 195/100)])
  , ("O",  [(1/2,  93/100), (1, 108/100), (3/2, 120/100), (2, 132/100), (5/2, 162/100), (3, 192/100)])
  , ("S",  [(1/2,  90/100), (1, 105/100), (3/2, 117/100), (2, 132/100), (5/2, 162/100), (3, 192/100)])
  , ("P",  [(1/2,  90/100), (1, 105/100), (3/2, 117/100), (2, 132/100), (5/2, 162/100), (3, 195/100)])
  , ("SE", [(1/2,  84/100), (1,  99/100), (3/2, 111/100), (2, 129/100), (5/2, 159/100), (3, 189/100)])
  , ("MG", [(1/2,  87/100), (1, 102/100), (3/2, 114/100), (2, 132/100), (5/2, 162/100), (3, 192/100)])
  , ("CL", [(1/2,  90/100), (1, 105/100), (3/2, 117/100), (2, 132/100), (5/2, 162/100), (3, 192/100)])
  , ("CA", [(1/2,  87/100), (1, 102/100), (3/2, 117/100), (2, 132/100), (5/2, 162/100), (3, 192/100)])
  ]

/-- Embedding of the selection loop of `get_atom_radius`
(`src/quantify/resources.py`): `selected_level = available_res_levels[0];
for level in available_res_levels: if resolution >= level: selected_level =
level else: break`.  `sel` is the (threshold, radius) pair currently
selected; the function walks the remaining (threshold, radius) pairs in
ascending threshold order. -/
def selectLevel (levels : List (ℚ × ℚ)) (res : ℚ) (sel : ℚ × ℚ) : ℚ × ℚ :=
  match levels with
  | [] => sel
  | l :: ls => if l.1 ≤ res then selectLevel ls res l else sel

/-- Profile resolution of `get_atom_radius`: uppercase/strip the element
symbol, fall back to carbon (`"C"`) when the element is absent from
`ATOM_RADII_DATA`. -/
def profileOf (element : String) : List (ℚ × ℚ) :=
  let e := pyStrip (pyUpper element)
  let e := if (ATOM_RADII_DATA.lookup e).isSome then e else "C"
  ((ATOM_RADII_DATA.lookup e).getD [])

/-- The (threshold, radius) pair selected by `get_atom_radius` for a given
element and resolution.  The Python loop starts with the first level
selected and re-examines it first; `selectLevel` applied to the whole
profile with the head as initial selection reproduces that exactly. -/
def selectedPair (element : String) (resolution : ℚ) : ℚ × ℚ :=
  match profileOf element with
  | [] => (0, 0)
  | p :: ps => selectLevel (p :: ps) resolution p

/-- Embedding of `get_atom_radius(element, resolution)` from
`src/quantify/resources.py` (the `[] => 0` arm of `selectedPair` is
unreachable: every profile in the table, including the carbon fallback, is
non-empty). -/
def get_atom_radius (element : String) (resolution : ℚ) : ℚ :=
  (selectedPair element resolution).2

/-! ### aggregator.py: the voxel bias solver -/

/-- `np.mean` on a 1-D array, as exact rational arithmetic
(`0 / 0 = 0` stands in for the empty-array case, which no claim relies
on). -/
def npMean (xs : List ℚ) : ℚ := xs.sum / xs.length

/-- The square of `np.std(xs, ddof=1)` (sample variance with `n - 1`
denominator); the code's standard deviation is its square root. -/
def npVar1 (xs : List ℚ) : ℚ :=
  ((xs.map (fun x => (x - npMean xs) ^ 2)).sum) / ((xs.length : ℚ) - 1)

/-- Boolean-mask selection `values[col == c]` of `numpy`, for `values` and
`col` of equal length. -/
def selectEq (vals col : List ℚ) (c : ℚ) : List ℚ :=
  ((vals.zip col).filter (fun p => decide (p.2 = c))).map (fun p => p.1)

/-- Column `j` of a row-major status matrix (`status[:, j]`). -/
def colAt (st : List (List ℚ)) (j : ℕ) : List ℚ :=
  st.map (fun row => row.getD j 0)

/-- Per-owner bias from `solve_voxel` (`src/quantify/aggregator.py`): if the
column holds both a `1.0` and a `0.0`, bias = `np.mean(values[col == 1.0])
- np.mean(values[col == 0.0])`, otherwise the bias is kept at `0.0`. -/
def colBias (vals col : List ℚ) : ℚ :=
  let hasPresent := col.any (fun x => decide (x = 1))
  let hasOmitted := col.any (fun x => decide (x = 0))
  if hasPresent && hasOmitted then
    npMean (selectEq vals col 1) - npMean (selectEq vals col 0)
  else 0

/-- `np.dot` of two 1-D arrays of equal length. -/
def dotL (xs ys : List ℚ) : ℚ :=
  ((xs.zip ys).map (fun p => p.1 * p.2)).sum

/-- Result triple of `solve_voxel`: `[np.mean(v), np.std(v, ddof=1),
v.tolist()]`, with the standard deviation carried as its square
(`var`). -/
structure VoxelResult where
  mean : ℚ
  var : ℚ
  dist : List ℚ
deriving Repr, DecidableEq

/-- Embedding of `solve_voxel(values, status)` from
`src/quantify/aggregator.py`.  `status = none` is Python's `status is None`;
otherwise `status` is the row-major `n_maps × n_owners` matrix.
`n_owners = status.shape[1]` is read off the first row (the matrix built by
`query_voxel_ownership` always has at least one row per claim of
interest, and uniform row length). -/
def solve_voxel (values : List ℚ) (status : Option (List (List ℚ))) : VoxelResult :=
  match status with
  | none => ⟨npMean values, npVar1 values, values⟩
  | some st =>
    let nOwners := (st.headD []).length
    let biases := (List.range nOwners).map (fun j => colBias values (colAt st j))
    let totalBias := st.map (fun row => dotL row biases)
    let cleaned := (values.zip totalBias).map (fun p => p.1 - p.2)
    ⟨npMean cleaned, npVar1 cleaned, cleaned⟩

/-- The per-cell SNR rule of `aggregate_ensemble`
(`src/quantify/aggregator.py`): `s / n if n > 1e-12 else 0.0`, where `s` is
the cell's mean and `n` its standard deviation. -/
def snrOf (s n : ℚ) : ℚ :=
  if 1 / 1000000000000 < n then s / n else 0

/-! ### ownership_logic.py -/

/-- Embedding of `parse_atom_key` (`src/quantify/ownership_logic.py`):
splits `"A|1856|SER|N|\u0000"` on `"|"`; the altloc is the fifth part
unless it is the NUL sentinel.  (The Python version raises on keys with
fewer than four parts and the caller skips such keys; here missing parts
read as `""`, which resolves to no atom — the same observable effect.) -/
def parse_atom_key (key : String) : String × String × String × String × String :=
  let parts := pySplit key '|'
  let altloc := if 4 < parts.length ∧ parts.getD 4 ("") ≠ "\x00" then parts.getD 4 ("") else ""
  (parts.getD 0 (""), parts.getD 1 (""), parts.getD 2 (""), parts.getD 3 (""), altloc)

/-- Embedding of `parse_residue_key` (`src/quantify/ownership_logic.py`):
splits `"A|1856|SER"` on `"|"`. -/
def parse_residue_key (key : String) : String × String × String :=
  let parts := pySplit key '|'
  (parts.getD 0 (""), parts.getD 1 (""), parts.getD 2 (""))

/-- Embedding of `_update_max_map` (`src/quantify/ownership_logic.py`):
`curr = max(map_ids)` raises `ValueError` on an empty list — modelled as
`none` — and otherwise the running maximum is returned. -/
def _update_max_map (map_ids : List ℤ) (max_map_id_seen : ℤ) : Option ℤ :=
  match map_ids.max? with
  | none => none
  | some curr => some (if max_map_id_seen < curr then curr else max_map_id_seen)

/-- An atom of the reference structure, with the identifiers the gemmi
selections of `build_spatial_index` match on. -/
structure Atom where
  chain : String
  resSeq : String
  resName : String
  name : String
  altloc : String
  element : String
  pos : ℚ × ℚ × ℚ
deriving Repr, DecidableEq

/-- Per-key atom resolution of the `mode='atoms'` branch of
`build_spatial_index`: the selection `/1/{chain}/{res_seq}/{atom_name}`
(with `:{altloc}` when the key carries one) followed by `[0][0][0][0]`
yields the first matching atom; an empty selection raises and the key is
skipped (`[]` here).  No hydrogen check is performed on this branch. -/
def resolveKeyAtoms (st : List Atom) (key : String) : List Atom :=
  let parsed := parse_atom_key key
  let chain := parsed.1
  let resSeq := parsed.2.1
  let atomName := parsed.2.2.2.1
  let altloc := parsed.2.2.2.2
  match st.find? (fun a =>
      a.chain == chain && a.resSeq == resSeq && a.name == atomName
        && (altloc == "" || a.altloc == altloc)) with
  | none => []
  | some a => [a]

/-- Per-key atom resolution of the `mode='amino_acids'` branch of
`build_spatial_index`: the selection `/1/{chain_id}/{res_seq}` yields the
named residue's atoms, and every atom whose element is `"H"` is skipped
(`if atom.element.name == "H": continue`). -/
def resolveKeyAmino (st : List Atom) (key : String) : List Atom :=
  let parsed := parse_residue_key key
  let chain := parsed.1
  let resSeq := parsed.2.1
  (st.filter (fun a => a.chain == chain && a.resSeq == resSeq)).filter
    (fun a => a.element != "H")

/-- The (atom, owner key) records appended by the resolution loop of
`build_spatial_index`: the per-key per-atom appends to `atom_positions` /
`atom_radii` / `atom_to_owner`, written as one flat list of resolved atoms
paired with their owner keys, in loop order. -/
def resolvedRecords (st : List Atom) (omission_map : List (String × List ℤ))
    (mode : String) : List (Atom × String) :=
  if mode == "amino_acids" then
    omission_map.flatMap (fun p => (resolveKeyAmino st p.1).map (fun a => (a, p.1)))
  else
    omission_map.flatMap (fun p => (resolveKeyAtoms st p.1).map (fun a => (a, p.1)))

/-- The dictionary returned by `build_spatial_index`.  The `KDTree` is an
acceleration structure over `positions`; its only use,
`query_ball_point`, is modelled directly as a scan over `positions`. -/
structure SpatialIndex where
  positions : List (ℚ × ℚ × ℚ)
  radii : List ℚ
  atom_to_owner : List String
  owner_schedules : List (String × List ℤ)
  max_radius : ℚ
  max_map_id_seen : ℤ
deriving Repr, DecidableEq

/-- Embedding of `build_spatial_index(pdb_path, omission_map, resolution,
k, mode)` from `src/quantify/ownership_logic.py`, with the structure read
from `pdb_path` passed directly as `st` (file I/O is out of scope) and the
Python dict `omission_map` as an insertion-ordered association list.

In the source, each key's `_update_max_map` call sits *outside* the
per-key `try`, so a `ValueError` from an empty `map_ids` list reaches the
outer `except` and the whole build returns `None`; per-key resolution
failures are caught and skipped.  Interleaving of the max-map updates with
the atom appends does not affect the returned value, so the max-map pass
is folded first here.  `if not atom_positions: return None` is the empty
check on the resolved list. -/
def build_spatial_index (st : List Atom) (omission_map : List (String × List ℤ))
    (resolution : ℚ) (k : ℚ) (mode : String) : Option SpatialIndex :=
  match omission_map.foldlM (fun acc p => _update_max_map p.2 acc) 0 with
  | none => none
  | some maxSeen =>
    let resolved : List (Atom × String) := resolvedRecords st omission_map mode
    if resolved.isEmpty then none
    else
      let radii := resolved.map (fun p => get_atom_radius p.1.element resolution * k)
      some { positions := resolved.map (fun p => p.1.pos)
             radii := radii
             atom_to_owner := resolved.map (fun p => p.2)
             owner_schedules := omission_map
             max_radius := radii.max?.getD 0
             max_map_id_seen := maxSeen }

/-- Squared Euclidean distance; the source compares
`np.linalg.norm(a - b) <= r`, modelled as `sqDist a b ≤ r ^ 2` (equivalent
for the nonnegative radii the table produces). -/
def sqDist (a b : ℚ × ℚ × ℚ) : ℚ :=
  (a.1 - b.1) ^ 2 + (a.2.1 - b.2.1) ^ 2 + (a.2.2 - b.2.2) ^ 2

/-- One `status_matrix[map_id, col_idx] = 0.0` store.  A numpy write with
a row or column index out of range raises `IndexError`; that is the `none`
arm.  (The in-range guard in the source ensures it is never taken.) -/
def statusSet (m : List (List ℚ)) (i j : ℕ) : Option (List (List ℚ)) :=
  if i < m.length ∧ j < (m.getD i []).length then
    some (m.set i ((m.getD i []).set j 0))
  else none

/-- The inner loop of `query_voxel_ownership` for one owner column:
`for map_id in omitted_maps: if 0 <= map_id < n_maps:
status_matrix[map_id, col_idx] = 0.0`. -/
def setOmitted (nMaps : ℕ) (mat : List (List ℚ)) (colIdx : ℕ) (omitted : List ℤ) :
    Option (List (List ℚ)) :=
  omitted.foldlM (fun m mid =>
    if 0 ≤ mid ∧ mid < (nMaps : ℤ) then statusSet m mid.toNat colIdx else some m) mat

/-- The status-matrix construction of `query_voxel_ownership`
(`src/quantify/ownership_logic.py`, the lines after the owner scan):
`np.ones((n_maps, len(active_owners_list)))`, then for each active owner
column, zero out that owner's scheduled in-range ensemble indices
(`owner_schedules.get(owner_key, [])`). -/
def buildStatusMatrix (nMaps : ℕ) (owners : List String)
    (schedules : List (String × List ℤ)) : Option (List (List ℚ)) :=
  owners.enum.foldlM (fun m p =>
      setOmitted nMaps m p.1 ((schedules.lookup p.2).getD []))
    (List.replicate nMaps (List.replicate owners.length 1))

/-- Embedding of `query_voxel_ownership(spatial_index, grid_coords,
n_maps)`.  The outer `Option` is exception propagation (never `none`: the
in-range guard protects every store); the inner `Option` is the Python
`None` for "no owners".  `query_ball_point` is the coarse scan within
`max_radius`; the exact filter keeps atoms within their own radii; owners
are deduplicated (`set(...)`; Python set order is arbitrary, `dedup`
picks one order). -/
def query_voxel_ownership (idx : SpatialIndex) (coords : ℚ × ℚ × ℚ) (nMaps : ℕ) :
    Option (Option (List (List ℚ))) :=
  let indices := (List.range idx.positions.length).filter
    (fun i => decide (sqDist coords (idx.positions.getD i (0, 0, 0)) ≤ idx.max_radius ^ 2))
  if indices.isEmpty then some none
  else
    let active := ((indices.filter (fun i =>
        decide (sqDist coords (idx.positions.getD i (0, 0, 0)) ≤ (idx.radii.getD i 0) ^ 2))).map
      (fun i => idx.atom_to_owner.getD i (""))).dedup
    if active.isEmpty then some none
    else (buildStatusMatrix nMaps active idx.owner_schedules).map some

/-! ### statistical_model.py -/

/-- A 3-D scalar grid (`np.ndarray` of shape `(nx, ny, nz)`). -/
abbrev Grid3 : Type := List (List (List ℚ))

/-- `np.zeros_like(g)`: zeros in the shape of `g`. -/
def zerosLike (g : Grid3) : Grid3 :=
  g.map (fun plane => plane.map (fun row => row.map (fun _ => 0)))

/-- Embedding of `fit_t_test(null_snr, full_snr_map)` from
`src/quantify/statistical_model.py`.  The scipy fit-and-survival-function
pipeline (`t.fit` on the null samples, then elementwise `t.sf`) is
external library code, modelled by the uninterpreted parameter `t_sf`
mapping the null sample list and a cell value to that cell's p-value; the
guard `if len(null_snr) == 0: return np.zeros_like(full_snr_map)` is the
code under test. -/
def fit_t_test (t_sf : List ℚ → ℚ → ℚ) (null_snr : List ℚ) (full_snr_map : Grid3) : Grid3 :=
  if null_snr.length = 0 then zerosLike full_snr_map
  else full_snr_map.map (fun plane => plane.map (fun row => row.map (t_sf null_snr)))

/-! ### Derived definitions used by the statements -/

/-- Shape of a 3-D grid: per-plane list of row lengths (together with the
outer list length this determines the numpy shape). -/
def shape3 (g : Grid3) : List (List ℕ) :=
  g.map (fun plane => plane.map List.length)

/-- Well-formedness of an `n × w` row-major matrix. -/
def Dims (m : List (List ℚ)) (n w : ℕ) : Prop :=
  m.length = n ∧ ∀ row ∈ m, row.length = w

/-- The in-range test `0 <= map_id < n_maps` of `query_voxel_ownership`. -/
def inRangeZ (n : ℕ) (mid : ℤ) : Bool :=
  decide (0 ≤ mid ∧ mid < (n : ℤ))

/-- A schedule with every owner's omission list restricted to in-range
ensemble indices. -/
def filterSchedules (n : ℕ) (schedules : List (String × List ℤ)) :
    List (String × List ℤ) :=
  schedules.map (fun p => (p.1, p.2.filter (inRangeZ n)))

/-- Deletion of owner column `j` from a row-major status matrix. -/
def eraseCol (j : ℕ) (st : List (List ℚ)) : List (List ℚ) :=
  st.map (fun row => row.eraseIdx j)

/-! ### Claim theorems -/

/-- C1 counterexample.  At `values = [1, 2, 3, 4]` and a single-owner status
column present in members `{0, 2}` and omitted in `{1, 3}`, the bias is
`mean({1, 3}) - mean({2, 4}) = -1`, and the claim predicts the corrected
vector `[1, 3, 3, 5]` (bias subtracted from the omitted members `{1, 3}`,
members `{0, 2}` unchanged).  The code instead returns `[2, 2, 4, 4]`:
`cleaned = values - status @ biases` subtracts the bias at the *present*
members `{0, 2}` and leaves the omitted members unchanged. -/
theorem solve_voxel_scenario1_counterexample :
    (solve_voxel [1, 2, 3, 4] (some [[1], [0], [1], [0]])).dist = [2, 2, 4, 4] ∧
    ([2, 2, 4, 4] : List ℚ) ≠ [1, 3, 3, 5] := by
  constructor
  · simp [solve_voxel, colBias, colAt, selectEq, npMean, dotL, List.range_succ]
    norm_num
  · decide

/-- C1 (amended): for an ensemble of 4 values at a point covered by a single
owner omitted exactly in members `{1, 3}`, the solver computes
`bias = mean(values at {0, 2}) - mean(values at {1, 3})` and subtracts that
scalar bias from the *present* members `{0, 2}`, leaving the omitted
members `{1, 3}` unchanged (per-member total bias = status row · owner
bias vector). -/
theorem solve_voxel_scenario1 (v0 v1 v2 v3 : ℚ) :
    (solve_voxel [v0, v1, v2, v3] (some [[1], [0], [1], [0]])).dist =
      [v0 - ((v0 + v2) / 2 - (v1 + v3) / 2), v1,
       v2 - ((v0 + v2) / 2 - (v1 + v3) / 2), v3] := by
  simp [solve_voxel, colBias, colAt, selectEq, npMean, dotL, List.range_succ]

/-- C3: when the ownership query reports no owners (`status is None`), the
solver returns the raw ensemble mean, the sample standard deviation with
`n - 1` denominator (carried as its square), and the raw value vector
unchanged. -/
theorem solve_voxel_no_owners (values : List ℚ) :
    (solve_voxel values none).mean = values.sum / values.length ∧
    (solve_voxel values none).var
      = ((values.map (fun x => (x - values.sum / values.length) ^ 2)).sum)
          / ((values.length : ℚ) - 1) ∧
    (solve_voxel values none).dist = values :=
  ⟨rfl, rfl, rfl⟩

/-- C5: the per-cell SNR equals `mean / std` whenever the standard
deviation exceeds the `1e-12` floor — a genuine finite quotient, witnessed
by `snr * std = mean` — and is exactly `0` otherwise; over exact
rationals no NaN or infinity can arise. -/
theorem snr_guard (s n : ℚ) :
    (1 / 1000000000000 < n → snrOf s n = s / n ∧ snrOf s n * n = s) ∧
    (n ≤ 1 / 1000000000000 → snrOf s n = 0) := by
  constructor
  · intro h
    have hn : n ≠ 0 := by positivity
    refine ⟨if_pos h, ?_⟩
    rw [snrOf, if_pos h, div_mul_cancel₀ _ hn]
  · intro h
    exact if_neg (not_lt.mpr h)

/-- Witness for C5 at `s = 3` with `n = 1` (above the floor) and `n = 0`
(at/below the floor). -/
theorem snr_guard_witness : snrOf 3 1 = 3 ∧ snrOf 3 0 = 0 :=
  ⟨((snr_guard 3 1).1 (by norm_num)).1.trans (by norm_num),
   (snr_guard 3 0).2 (by norm_num)⟩

/-- C8: an empty null-sample set makes `fit_t_test` return the all-zero
grid of the same shape as the input SNR grid, without reaching the scipy
fit (the function is total on this path). -/
theorem fit_t_test_empty (t_sf : List ℚ → ℚ → ℚ) (g : Grid3) :
    fit_t_test t_sf [] g = zerosLike g ∧
    shape3 (fit_t_test t_sf [] g) = shape3 g ∧
    ∀ plane ∈ fit_t_test t_sf [] g, ∀ row ∈ plane, ∀ x ∈ row, x = 0 := by
  refine ⟨rfl, ?_, ?_⟩
  · show shape3 (zerosLike g) = shape3 g
    simp [shape3, zerosLike, List.map_map, Function.comp]
  · show ∀ plane ∈ zerosLike g, _
    intro plane hp row hr x hx
    simp only [zerosLike, List.mem_map] at hp
    obtain ⟨p0, -, rfl⟩ := hp
    simp only [List.mem_map] at hr
    obtain ⟨r0, -, rfl⟩ := hr
    simp only [List.mem_map] at hx
    obtain ⟨x0, -, rfl⟩ := hx
    rfl

/-- Witness for C8 on a concrete `1 × 1 × 2` SNR grid and a concrete
stand-in for the scipy survival function. -/
theorem fit_t_test_empty_witness :
    fit_t_test (fun _ x => x) [] [[[5, 7]]] = zerosLike [[[5, 7]]] ∧
    shape3 (fit_t_test (fun _ x => x) [] [[[5, 7]]]) = shape3 [[[5, 7]]] ∧
    ∀ plane ∈ fit_t_test (fun _ x => x) [] [[[5, 7]]], ∀ row ∈ plane,
      ∀ x ∈ row, x = 0 :=
  fit_t_test_empty (fun _ x => x) [[[5, 7]]]

/-- A fold of `_update_max_map` over a schedule containing an owner with an
empty omission list fails (`max([])` raises `ValueError`), whatever the
accumulator. -/
theorem foldlM_update_none {key : String} :
    ∀ (l : List (String × List ℤ)), (key, ([] : List ℤ)) ∈ l → ∀ (a : ℤ),
      l.foldlM (fun acc p => _update_max_map p.2 acc) a = none := by
  intro l
  induction l with
  | nil => intro h; exact absurd h (List.not_mem_nil _)
  | cons x xs ih =>
    intro h a
    rcases List.mem_cons.mp h with h | h
    · subst h
      simp [List.foldlM, _update_max_map, List.max?]
    · show (_update_max_map x.2 a) >>= _ = none
      cases hx : _update_max_map x.2 a with
      | none => rfl
      | some a' => simpa using ih h a'

/-- C10: if the omission schedule maps any owner key to an empty list of
omitted indices, `build_spatial_index` fails for the entire run (returns
`None`), in any mode and regardless of how every other key resolves: the
`max(map_ids)` call sits outside the per-key `try`, so the `ValueError`
reaches the outer handler.  (An unresolvable owner key, by contrast, is
skipped non-fatally — see the witness.) -/
theorem build_empty_omission_fails (st : List Atom)
    (omap : List (String × List ℤ)) (resolution k : ℚ) (mode : String)
    (key : String) (h : (key, ([] : List ℤ)) ∈ omap) :
    build_spatial_index st omap resolution k mode = none := by
  unfold build_spatial_index
  rw [foldlM_update_none omap h 0]

/-- Witness for C10: a schedule whose first key resolves to the one atom of
the structure and whose second key has an empty omission list; the build
returns `None`.  With `[3]` instead of `[]` on the (unresolvable) second
key, the same build succeeds — the empty list, not the bad key, is what
kills the run. -/
theorem build_empty_omission_fails_witness :
    ((("B|9|XXX|ZZ|\x00", []) : String × List ℤ)
        ∈ ([("A|2|GLY|CA|\x00", [0]), ("B|9|XXX|ZZ|\x00", [])]
            : List (String × List ℤ))) ∧
    build_spatial_index [⟨"A", "2", "GLY", "CA", "", "C", (1, 0, 0)⟩]
        [("A|2|GLY|CA|\x00", [0]), ("B|9|XXX|ZZ|\x00", [])] 2 1 "atoms"
      = none :=
  ⟨by decide,
   build_empty_omission_fails [⟨"A", "2", "GLY", "CA", "", "C", (1, 0, 0)⟩]
     [("A|2|GLY|CA|\x00", [0]), ("B|9|XXX|ZZ|\x00", [])] 2 1 "atoms"
     "B|9|XXX|ZZ|\x00" (by decide)⟩

/-- C2 counterexample.  A reference structure whose only atom is a
hydrogen (element `"H"`, atom name `"H1"`), an omission schedule keyed by
that atom, `mode="atoms"`: the build succeeds and its one AtomRecord is the
hydrogen (its position and owner key are returned).  The `atoms` branch of
`build_spatial_index` has no hydrogen filter; only the `amino_acids`
branch checks `atom.element.name == "H"`. -/
theorem build_atoms_hydrogen_counterexample :
    (build_spatial_index [⟨"A", "1", "GLY", "H1", "", "H", (0, 0, 0)⟩]
        [("A|1|GLY|H1|\x00", [0])] 2 1 "atoms").map
      (fun idx => (idx.positions, idx.atom_to_owner))
      = some ([(0, 0, 0)], ["A|1|GLY|H1|\x00"]) := by rfl

/-- Positions stored by a successful `build_spatial_index` are exactly the
positions of the resolved (atom, owner) records. -/
theorem build_positions_spec (st : List Atom) (omap : List (String × List ℤ))
    (resolution k : ℚ) (mode : String) (idx : SpatialIndex)
    (h : build_spatial_index st omap resolution k mode = some idx) :
    idx.positions = (resolvedRecords st omap mode).map (fun p => p.1.pos) := by
  unfold build_spatial_index at h
  rcases hm : omap.foldlM (fun acc p => _update_max_map p.2 acc) 0 with _ | maxSeen
  · rw [hm] at h; exact absurd h (by simp)
  · rw [hm] at h
    simp only [] at h
    split at h
    · exact absurd h (by simp)
    · obtain rfl := Option.some.inj h |>.symm
      rfl

/-- Every record resolved in `amino_acids` mode is a non-hydrogen atom of
the structure (the branch filters `atom.element.name == "H"`). -/
theorem resolvedRecords_amino_no_hydrogen (st : List Atom)
    (omap : List (String × List ℤ)) :
    ∀ pair ∈ resolvedRecords st omap "amino_acids",
      pair.1 ∈ st ∧ pair.1.element ≠ "H" := by
  intro pair hp
  unfold resolvedRecords at hp
  rw [if_pos (by rfl)] at hp
  obtain ⟨q, -, hq⟩ := List.mem_flatMap.mp hp
  obtain ⟨a, ha, rfl⟩ := List.mem_map.mp hq
  unfold resolveKeyAmino at ha
  obtain ⟨ha1, ha2⟩ := List.mem_filter.mp ha
  refine ⟨(List.mem_filter.mp ha1).1, ?_⟩
  simpa using ha2

/-- C2 (amended): in `amino_acids` mode no hydrogen atom of the reference
structure is included among the index's AtomRecords — every stored
position belongs to a non-hydrogen atom of the structure.  In `atoms`
mode the claim fails (see the counterexample): the key's atom is included
whatever its element. -/
theorem build_amino_excludes_hydrogen (st : List Atom)
    (omap : List (String × List ℤ)) (resolution k : ℚ)
    (ps : List (ℚ × ℚ × ℚ))
    (h : (build_spatial_index st omap resolution k "amino_acids").map
          SpatialIndex.positions = some ps) :
    ∀ p ∈ ps, ∃ a ∈ st, a.element ≠ "H" ∧ a.pos = p := by
  cases hb : build_spatial_index st omap resolution k "amino_acids" with
  | none => rw [hb] at h; exact absurd h (by simp)
  | some idx =>
    rw [hb] at h
    simp only [Option.map_some'] at h
    obtain rfl := Option.some.inj h
    intro p hp
    rw [build_positions_spec st omap resolution k _ idx hb] at hp
    obtain ⟨pair, hpair, rfl⟩ := List.mem_map.mp hp
    obtain ⟨hmem, hel⟩ := resolvedRecords_amino_no_hydrogen st omap pair hpair
    exact ⟨pair.1, hmem, hel, rfl⟩

/-- Witness for C2 (amended): residue `A|1|GLY` holds a hydrogen and a
carbon; the amino-mode build keeps only the carbon's position `(1, 2, 3)`,
and that position belongs to a non-hydrogen atom of the structure. -/
theorem build_amino_excludes_hydrogen_witness :
    ((build_spatial_index
        [⟨"A", "1", "GLY", "H1", "", "H", (9, 9, 9)⟩,
         ⟨"A", "1", "GLY", "CA", "", "C", (1, 2, 3)⟩]
        [("A|1|GLY", [0])] 2 1 "amino_acids").map SpatialIndex.positions
      = some [(1, 2, 3)]) ∧
    ∀ p ∈ ([(1, 2, 3)] : List (ℚ × ℚ × ℚ)),
      ∃ a ∈ [(⟨"A", "1", "GLY", "H1", "", "H", (9, 9, 9)⟩ : Atom),
             ⟨"A", "1", "GLY", "CA", "", "C", (1, 2, 3)⟩],
        a.element ≠ "H" ∧ a.pos = p :=
  ⟨by rfl,
   build_amino_excludes_hydrogen
     [⟨"A", "1", "GLY", "H1", "", "H", (9, 9, 9)⟩,
      ⟨"A", "1", "GLY", "CA", "", "C", (1, 2, 3)⟩]
     [("A|1|GLY", [0])] 2 1 [(1, 2, 3)] (by rfl)⟩

theorem npMean_all_eq (xs : List ℚ) (c : ℚ) (hne : xs ≠ []) (hall : ∀ x ∈ xs, x = c) :
    npMean xs = c := by
  have hsum : xs.sum = xs.length • c := List.sum_eq_card_nsmul xs c hall
  have hlen : (xs.length : ℚ) ≠ 0 := by
    simpa using List.length_pos.mpr hne |>.ne'
  rw [npMean, hsum, nsmul_eq_mul]
  exact mul_div_cancel_left₀ c hlen

theorem npVar1_all_eq (xs : List ℚ) (c : ℚ) (hall : ∀ x ∈ xs, x = c) :
    npVar1 xs = 0 := by
  rcases eq_or_ne xs [] with rfl | hne
  · simp [npVar1]
  · have hmean := npMean_all_eq xs c hne hall
    rw [npVar1]
    have : (xs.map (fun x => (x - npMean xs) ^ 2)).sum = 0 := by
      apply List.sum_eq_zero
      intro y hy
      obtain ⟨x, hx, rfl⟩ := List.mem_map.mp hy
      rw [hall x hx, hmean, sub_self]
      ring
    rw [this, zero_div]

theorem selectEq_subset (vals col : List ℚ) (c : ℚ) :
    ∀ x ∈ selectEq vals col c, x ∈ vals := by
  intro x hx
  obtain ⟨p, hp, rfl⟩ := List.mem_map.mp hx
  exact (List.of_mem_zip (List.mem_of_mem_filter hp)).1

theorem selectEq_ne_nil (vals col : List ℚ) (c : ℚ)
    (hlen : col.length = vals.length) (hc : c ∈ col) :
    selectEq vals col c ≠ [] := by
  obtain ⟨i, hi, hget⟩ := List.mem_iff_getElem.mp hc
  have hiv : i < vals.length := hlen ▸ hi
  have hlz : i < (vals.zip col).length := by
    rw [List.length_zip]
    omega
  have hz : (vals[i], c) ∈ vals.zip col := by
    have hgz : (vals.zip col)[i] = (vals[i], col[i]) := List.getElem_zip ..
    rw [hget] at hgz
    exact hgz ▸ List.getElem_mem hlz
  intro hnil
  have : (vals[i], c) ∈ (vals.zip col).filter (fun p => decide (p.2 = c)) :=
    List.mem_filter.mpr ⟨hz, by simp⟩
  have : vals[i] ∈ selectEq vals col c := List.mem_map.mpr ⟨_, this, rfl⟩
  rw [hnil] at this
  exact List.not_mem_nil _ this

theorem colBias_const (m : ℕ) (c : ℚ) (col : List ℚ) (hcol : col.length = m) :
    colBias (List.replicate m c) col = 0 := by
  rw [colBias]
  split
  · next hb =>
    obtain ⟨hp, ho⟩ := Bool.and_eq_true_iff.mp hb
    obtain ⟨x1, hx1m, hx1⟩ := List.any_eq_true.mp hp
    obtain ⟨x0, hx0m, hx0⟩ := List.any_eq_true.mp ho
    have h1 : (1 : ℚ) ∈ col := by rwa [of_decide_eq_true hx1] at hx1m
    have h0 : (0 : ℚ) ∈ col := by rwa [of_decide_eq_true hx0] at hx0m
    have hlen : col.length = (List.replicate m c).length := by simp [hcol]
    have e1 : npMean (selectEq (List.replicate m c) col 1) = c :=
      npMean_all_eq _ c (selectEq_ne_nil _ _ _ hlen h1)
        (fun x hx => List.eq_of_mem_replicate (selectEq_subset _ _ _ x hx))
    have e0 : npMean (selectEq (List.replicate m c) col 0) = c :=
      npMean_all_eq _ c (selectEq_ne_nil _ _ _ hlen h0)
        (fun x hx => List.eq_of_mem_replicate (selectEq_subset _ _ _ x hx))
    rw [e1, e0, sub_self]
  · rfl


theorem dotL_zero_right (xs ys : List ℚ) (h : ∀ y ∈ ys, y = 0) : dotL xs ys = 0 := by
  apply List.sum_eq_zero
  intro z hz
  obtain ⟨p, hp, rfl⟩ := List.mem_map.mp hz
  rw [h p.2 (List.of_mem_zip hp).2, mul_zero]

theorem zipSub_zeros (vals : List ℚ) :
    ∀ (tb : List ℚ), tb.length = vals.length → (∀ x ∈ tb, x = 0) →
      (vals.zip tb).map (fun p => p.1 - p.2) = vals := by
  induction vals with
  | nil => intro tb _ _; simp
  | cons v vs ih =>
    intro tb hlen hz
    cases tb with
    | nil => simp at hlen
    | cons t ts =>
      simp only [List.zip_cons_cons, List.map_cons]
      rw [hz t (List.mem_cons_self ..), sub_zero]
      congr 1
      exact ih ts (by simpa using hlen) (fun x hx => hz x (List.mem_cons_of_mem _ hx))

theorem solve_voxel_var_eq_dist (values : List ℚ) (status : Option (List (List ℚ))) :
    (solve_voxel values status).var = npVar1 ((solve_voxel values status).dist) := by
  cases status <;> rfl

/-- C9: at any cell where every ensemble member carries the same value
(the per-cell value vector is constant), the solver's corrected
distribution is the raw constant vector, its variance is 0 — so the noise
(its square root) is 0 — and the SNR floor triggers, giving SNR exactly 0;
this holds for the no-owner branch and for any well-formed status matrix,
so it holds at every cell of the aggregation.  (`2 ≤ m` keeps to the
regime where `np.std(·, ddof=1)` is defined.) -/
theorem constant_ensemble_zero (m : ℕ) (c : ℚ) (status : Option (List (List ℚ)))
    (hm : 2 ≤ m) (hst : ∀ st, status = some st → st.length = m) :
    (solve_voxel (List.replicate m c) status).var = 0 ∧
    ∀ x : ℚ, 0 ≤ x → x ^ 2 = (solve_voxel (List.replicate m c) status).var →
      snrOf (solve_voxel (List.replicate m c) status).mean x = 0 := by
  have hdist : (solve_voxel (List.replicate m c) status).dist = List.replicate m c := by
    cases status with
    | none => rfl
    | some st =>
      have hlen := hst st rfl
      simp only [solve_voxel]
      apply zipSub_zeros
      · simp [hlen]
      · intro x hx
        obtain ⟨row, hrow, rfl⟩ := List.mem_map.mp hx
        apply dotL_zero_right
        intro y hy
        obtain ⟨j, hj, rfl⟩ := List.mem_map.mp hy
        exact colBias_const m c (colAt st j) (by simp [colAt, hlen])
  have hvar : (solve_voxel (List.replicate m c) status).var = 0 := by
    rw [solve_voxel_var_eq_dist, hdist]
    exact npVar1_all_eq _ c (fun x hx => List.eq_of_mem_replicate hx)
  refine ⟨hvar, ?_⟩
  intro x hx hx2
  rw [hvar] at hx2
  have hx0 : x = 0 := (pow_eq_zero_iff two_ne_zero).mp hx2
  rw [hx0, snrOf, if_neg (by norm_num)]

/-- Witness for C9: a 3-member ensemble constant at `5`, with one owner
present in members `{0, 1}` and omitted in member `{2}`. -/
theorem constant_ensemble_zero_witness :
    2 ≤ 3 ∧
    ((solve_voxel (List.replicate 3 (5 : ℚ)) (some [[1], [1], [0]])).var = 0 ∧
     ∀ x : ℚ, 0 ≤ x →
       x ^ 2 = (solve_voxel (List.replicate 3 (5 : ℚ)) (some [[1], [1], [0]])).var →
         snrOf (solve_voxel (List.replicate 3 (5 : ℚ)) (some [[1], [1], [0]])).mean x
           = 0) :=
  ⟨by norm_num,
   constant_ensemble_zero 3 5 (some [[1], [1], [0]]) (by norm_num)
     (fun st h => by cases h; rfl)⟩

theorem lookup_cons_eq_if (k a : String) (b : List ℤ) (l : List (String × List ℤ)) :
    List.lookup k ((a, b) :: l) = if k == a then some b else List.lookup k l := by
  simp only [List.lookup]
  cases k == a <;> rfl

theorem lookup_filterSchedules (n : ℕ) (schedules : List (String × List ℤ))
    (key : String) :
    ((filterSchedules n schedules).lookup key).getD []
      = ((schedules.lookup key).getD []).filter (inRangeZ n) := by
  induction schedules with
  | nil => rfl
  | cons q qs ih =>
    obtain ⟨a, b⟩ := q
    rw [show filterSchedules n ((a, b) :: qs)
          = (a, b.filter (inRangeZ n)) :: filterSchedules n qs from rfl]
    rw [lookup_cons_eq_if, lookup_cons_eq_if]
    cases hk : key == a
    · simpa [hk] using ih
    · simp [hk]

theorem statusSet_dims {m : List (List ℚ)} {n w : ℕ} (i j : ℕ)
    (hd : Dims m n w) (hi : i < n) (hj : j < w) :
    ∃ m', statusSet m i j = some m' ∧ Dims m' n w := by
  have him : i < m.length := hd.1 ▸ hi
  have hrow : (m.getD i []).length = w := by
    rw [List.getD_eq_getElem m [] him]
    exact hd.2 _ (List.getElem_mem him)
  refine ⟨m.set i ((m.getD i []).set j 0), ?_, ?_, ?_⟩
  · rw [statusSet, if_pos ⟨him, by rw [hrow]; exact hj⟩]
  · rw [List.length_set]; exact hd.1
  · intro row hrowm
    rcases List.mem_or_eq_of_mem_set hrowm with h | h
    · exact hd.2 row h
    · rw [h, List.length_set, hrow]

theorem setOmitted_dims {m : List (List ℚ)} {n w : ℕ} (j : ℕ)
    (oms : List ℤ) (hd : Dims m n w) (hj : j < w) :
    ∃ m', setOmitted n m j oms = some m' ∧ Dims m' n w
      ∧ setOmitted n m j (oms.filter (inRangeZ n)) = some m' := by
  induction oms generalizing m with
  | nil => exact ⟨m, rfl, hd, rfl⟩
  | cons mid l ih =>
    by_cases hg : 0 ≤ mid ∧ mid < (n : ℤ)
    · have hnat : mid.toNat < n := by omega
      obtain ⟨m1, hset, hd1⟩ := statusSet_dims mid.toNat j hd hnat hj
      obtain ⟨m', h1, hd', h2⟩ := ih hd1
      refine ⟨m', ?_, hd', ?_⟩
      · rw [setOmitted, List.foldlM_cons, if_pos hg, hset]
        exact h1
      · rw [show (mid :: l).filter (inRangeZ n) = mid :: l.filter (inRangeZ n) by
              simp [List.filter_cons, inRangeZ, hg]]
        rw [setOmitted, List.foldlM_cons, if_pos hg, hset]
        exact h2
    · obtain ⟨m', h1, hd', h2⟩ := ih hd
      refine ⟨m', ?_, hd', ?_⟩
      · rw [setOmitted, List.foldlM_cons, if_neg hg]
        exact h1
      · rw [show (mid :: l).filter (inRangeZ n) = l.filter (inRangeZ n) by
              simp [List.filter_cons, inRangeZ, hg]]
        exact h2

theorem statusFold_spec (n w : ℕ) (schedules : List (String × List ℤ)) :
    ∀ (pairs : List (ℕ × String)) (m : List (List ℚ)), Dims m n w →
      (∀ p ∈ pairs, p.1 < w) →
      ∃ m', pairs.foldlM
              (fun mm p => setOmitted n mm p.1 ((schedules.lookup p.2).getD [])) m
            = some m'
        ∧ Dims m' n w
        ∧ pairs.foldlM
            (fun mm p =>
              setOmitted n mm p.1 (((filterSchedules n schedules).lookup p.2).getD []))
            m = some m' := by
  intro pairs
  induction pairs with
  | nil => intro m hd _; exact ⟨m, rfl, hd, rfl⟩
  | cons p ps ih =>
    intro m hd hp
    obtain ⟨m1, h1, hd1, h1f⟩ :=
      setOmitted_dims p.1 ((schedules.lookup p.2).getD []) hd
        (hp p (List.mem_cons_self _ _))
    obtain ⟨m', h2, hd', h2f⟩ := ih m1 hd1 (fun q hq => hp q (List.mem_cons_of_mem _ hq))
    refine ⟨m', ?_, hd', ?_⟩
    · rw [List.foldlM_cons, h1]
      exact h2
    · rw [List.foldlM_cons, lookup_filterSchedules, h1f]
      exact h2f

theorem enum_fst_lt {α : Type} (l : List α) : ∀ p ∈ l.enum, p.1 < l.length := by
  intro p hp
  have h2 := List.mem_enum_iff_getElem?.mp hp
  by_contra hlt
  rw [List.getElem?_eq_none (by omega)] at h2
  exact Option.noConfusion h2

/-- C7: the status-matrix construction never errors — whatever the
schedules hold, the matrix is built (`some`), has shape
`n × (#active owners)`, and out-of-range omission indices are ignored:
restricting every schedule entry to `[0, n)` yields the identical matrix.
Consequently a full ownership query never raises either. -/
theorem status_matrix_inrange (nMaps : ℕ) (owners : List String)
    (schedules : List (String × List ℤ)) (idx : SpatialIndex)
    (coords : ℚ × ℚ × ℚ) :
    (∃ mat, buildStatusMatrix nMaps owners schedules = some mat
        ∧ Dims mat nMaps owners.length
        ∧ buildStatusMatrix nMaps owners (filterSchedules nMaps schedules) = some mat)
    ∧ (query_voxel_ownership idx coords nMaps).isSome := by
  have hbuild : ∀ (ow : List String) (sch : List (String × List ℤ)),
      ∃ mat, buildStatusMatrix nMaps ow sch = some mat
        ∧ Dims mat nMaps ow.length
        ∧ buildStatusMatrix nMaps ow (filterSchedules nMaps sch) = some mat := by
    intro ow sch
    have hd0 : Dims (List.replicate nMaps (List.replicate ow.length (1 : ℚ)))
        nMaps ow.length := by
      refine ⟨by simp, ?_⟩
      intro row hr
      rw [List.eq_of_mem_replicate hr]
      simp
    obtain ⟨m', h1, hd', h2⟩ :=
      statusFold_spec nMaps ow.length sch ow.enum _ hd0 (enum_fst_lt ow)
    exact ⟨m', h1, hd', h2⟩
  refine ⟨hbuild owners schedules, ?_⟩
  rw [query_voxel_ownership]
  split
  · rfl
  · simp only []
    split
    · rfl
    · obtain ⟨mat, h1, -, -⟩ := hbuild _ idx.owner_schedules
      rw [h1]
      rfl

/-- Witness for C7 at the spec's end-to-end scenario 2: the schedule maps
the owner to omission indices `[0..4]` while the ensemble size passed to
the query is `3`. -/
theorem status_matrix_inrange_witness :
    (∃ mat, buildStatusMatrix 3 ["o1"] [("o1", [0, 1, 2, 3, 4])] = some mat
        ∧ Dims mat 3 (["o1"] : List String).length
        ∧ buildStatusMatrix 3 ["o1"]
            (filterSchedules 3 [("o1", [0, 1, 2, 3, 4])]) = some mat)
    ∧ (query_voxel_ownership ⟨[], [], [], [], 0, 0⟩ (0, 0, 0) 3).isSome :=
  status_matrix_inrange 3 ["o1"] [("o1", [0, 1, 2, 3, 4])] ⟨[], [], [], [], 0, 0⟩ (0, 0, 0)

theorem lookup_mem_values {β : Type} (l : List (String × β)) (k : String) (v : β)
    (h : l.lookup k = some v) : v ∈ l.map Prod.snd := by
  induction l with
  | nil => simp [List.lookup] at h
  | cons x xs ih =>
    obtain ⟨a, b⟩ := x
    simp only [List.lookup] at h
    cases hk : k == a
    · rw [hk] at h
      exact List.mem_cons_of_mem _ (ih h)
    · rw [hk] at h
      obtain rfl := Option.some.inj h
      exact List.mem_cons_self _ _

theorem selectLevel_snd_ge (levels : List (ℚ × ℚ)) (res : ℚ) :
    ∀ sel : ℚ × ℚ, List.Pairwise (fun a b : ℚ × ℚ => a.2 ≤ b.2) (sel :: levels) →
      sel.2 ≤ (selectLevel levels res sel).2 := by
  induction levels with
  | nil => intro sel _; exact le_refl _
  | cons l ls ih =>
    intro sel hp
    rw [selectLevel]
    by_cases hc : l.1 ≤ res
    · rw [if_pos hc]
      have h1 : sel.2 ≤ l.2 :=
        (List.pairwise_cons.mp hp).1 l (List.mem_cons_self _ _)
      exact h1.trans (ih l (List.pairwise_cons.mp hp).2)
    · rw [if_neg hc]

theorem selectLevel_fst_ge (levels : List (ℚ × ℚ)) (res : ℚ) :
    ∀ sel : ℚ × ℚ, List.Pairwise (fun a b : ℚ × ℚ => a.1 ≤ b.1) (sel :: levels) →
      sel.1 ≤ (selectLevel levels res sel).1 := by
  induction levels with
  | nil => intro sel _; exact le_refl _
  | cons l ls ih =>
    intro sel hp
    rw [selectLevel]
    by_cases hc : l.1 ≤ res
    · rw [if_pos hc]
      have h1 : sel.1 ≤ l.1 :=
        (List.pairwise_cons.mp hp).1 l (List.mem_cons_self _ _)
      exact h1.trans (ih l (List.pairwise_cons.mp hp).2)
    · rw [if_neg hc]

theorem selectLevel_mono (levels : List (ℚ × ℚ)) (res1 res2 : ℚ) (h12 : res1 ≤ res2) :
    ∀ sel : ℚ × ℚ, List.Pairwise (fun a b : ℚ × ℚ => a.2 ≤ b.2) (sel :: levels) →
      (selectLevel levels res1 sel).2 ≤ (selectLevel levels res2 sel).2 := by
  induction levels with
  | nil => intro sel _; exact le_refl _
  | cons l ls ih =>
    intro sel hp
    rw [selectLevel, selectLevel]
    by_cases h1 : l.1 ≤ res1
    · rw [if_pos h1, if_pos (h1.trans h12)]
      exact ih l (List.pairwise_cons.mp hp).2
    · rw [if_neg h1]
      by_cases h2 : l.1 ≤ res2
      · rw [if_pos h2]
        have ha : sel.2 ≤ l.2 :=
          (List.pairwise_cons.mp hp).1 l (List.mem_cons_self _ _)
        exact ha.trans (selectLevel_snd_ge ls res2 l (List.pairwise_cons.mp hp).2)
      · rw [if_neg h2]

theorem selectLevel_mem (levels : List (ℚ × ℚ)) (res : ℚ) :
    ∀ sel : ℚ × ℚ, selectLevel levels res sel ∈ sel :: levels := by
  induction levels with
  | nil => intro sel; rw [selectLevel]; exact List.mem_cons_self _ _
  | cons l ls ih =>
    intro sel
    rw [selectLevel]
    by_cases hc : l.1 ≤ res
    · rw [if_pos hc]
      rcases List.mem_cons.mp (ih l) with h | h
      · rw [h]; exact List.mem_cons_of_mem _ (List.mem_cons_self _ _)
      · exact List.mem_cons_of_mem _ (List.mem_cons_of_mem _ h)
    · rw [if_neg hc]
      exact List.mem_cons_self _ _

theorem selectLevel_max (levels : List (ℚ × ℚ)) (res : ℚ) :
    ∀ sel : ℚ × ℚ, List.Pairwise (fun a b : ℚ × ℚ => a.1 ≤ b.1) (sel :: levels) →
      ∀ q ∈ levels, q.1 ≤ res → q.1 ≤ (selectLevel levels res sel).1 := by
  induction levels with
  | nil => intro sel _ q hq; exact absurd hq (List.not_mem_nil _)
  | cons l ls ih =>
    intro sel hp q hq hqr
    rw [selectLevel]
    by_cases hc : l.1 ≤ res
    · rw [if_pos hc]
      rcases List.mem_cons.mp hq with h | h
      · rw [h]
        exact selectLevel_fst_ge ls res l (List.pairwise_cons.mp hp).2
      · exact ih l (List.pairwise_cons.mp hp).2 q h hqr
    · rw [if_neg hc]
      rcases List.mem_cons.mp hq with h | h
      · rw [h] at hqr
        exact absurd hqr hc
      · have hlq : l.1 ≤ q.1 :=
          (List.pairwise_cons.mp (List.pairwise_cons.mp hp).2).1 q h
        exact absurd (hlq.trans hqr) hc

theorem profileOf_mem_table (e : String) :
    profileOf e ∈ ATOM_RADII_DATA.map Prod.snd := by
  rw [profileOf]
  cases hs : ATOM_RADII_DATA.lookup (pyStrip (pyUpper e)) with
  | some v =>
    simp only [hs, Option.isSome_some, if_true, Option.getD_some]
    exact lookup_mem_values _ _ _ hs
  | none =>
    simp only [hs, Option.isNone_none, Option.isSome_none, Bool.false_eq_true,
      if_false]
    have hC : ATOM_RADII_DATA.lookup "C"
        = some [(1/2, 102/100), (1, 114/100), (3/2, 126/100), (2, 138/100),
                (5/2, 165/100), (3, 198/100)] := rfl
    rw [hC, Option.getD_some]
    exact lookup_mem_values _ _ _ hC

set_option maxHeartbeats 2000000 in
theorem profileOf_shape (e : String) :
    profileOf e ≠ [] ∧
    List.Pairwise (fun a b : ℚ × ℚ => a.1 ≤ b.1) (profileOf e) ∧
    List.Pairwise (fun a b : ℚ × ℚ => a.2 ≤ b.2) (profileOf e) := by
  have h := profileOf_mem_table e
  simp only [ATOM_RADII_DATA, List.map_cons, List.map_nil, List.mem_cons,
    List.not_mem_nil, or_false] at h
  rcases h with h | h | h | h | h | h | h | h | h | h <;>
    rw [h] <;>
    refine ⟨by simp, ?_, ?_⟩ <;>
    norm_num [List.pairwise_cons]

theorem profileOf_fallback (e : String)
    (hn : (ATOM_RADII_DATA.lookup (pyStrip (pyUpper e))).isNone = true) :
    profileOf e = profileOf "C" := by
  rw [Option.isNone_iff_eq_none] at hn
  rw [profileOf]
  simp only [hn, Option.isSome_none, Bool.false_eq_true, if_false]
  rfl

/-- The selection loop never selects a threshold above the resolution,
provided the initial selection is not: each step replaces the selection
only after checking `resolution >= level`. -/
theorem selectLevel_le_res (levels : List (ℚ × ℚ)) (res : ℚ) :
    ∀ sel : ℚ × ℚ, sel.1 ≤ res → (selectLevel levels res sel).1 ≤ res := by
  induction levels with
  | nil =>
    intro sel hs
    rw [selectLevel]
    exact hs
  | cons l ls ih =>
    intro sel hs
    rw [selectLevel]
    by_cases hc : l.1 ≤ res
    · rw [if_pos hc]
      exact ih l hc
    · rw [if_neg hc]
      exact hs

/-- C6: for every element symbol the radius lookup is non-decreasing in
resolution (`r1 ≤ r2` gives `radius(e, r1) ≤ radius(e, r2)`); the selected
(threshold, radius) pair is a table entry, every table threshold `≤` the
resolution is `≤` the selected threshold, and whenever the resolution is
at or above the smallest threshold the selected threshold is itself `≤`
the resolution — together: the selection is the largest table threshold
`≤` the resolution; any resolution below the smallest threshold returns
the smallest threshold's radius; and an element absent from the table
uses carbon's profile. -/
theorem radius_monotone (e : String) (r1 r2 : ℚ) (h : r1 ≤ r2) :
    get_atom_radius e r1 ≤ get_atom_radius e r2 ∧
    selectedPair e r1 ∈ profileOf e ∧
    (∀ q ∈ profileOf e, q.1 ≤ r1 → q.1 ≤ (selectedPair e r1).1) ∧
    (((profileOf e).headD (0, 0)).1 ≤ r1 → (selectedPair e r1).1 ≤ r1) ∧
    (r1 < ((profileOf e).headD (0, 0)).1 →
      get_atom_radius e r1 = ((profileOf e).headD (0, 0)).2) ∧
    ((ATOM_RADII_DATA.lookup (pyStrip (pyUpper e))).isNone = true →
      get_atom_radius e r1 = get_atom_radius "C" r1) := by
  obtain ⟨hne, hp1, hp2⟩ := profileOf_shape e
  obtain ⟨p, ps, hpe⟩ : ∃ p ps, profileOf e = p :: ps := by
    cases hpe : profileOf e with
    | nil => exact absurd hpe hne
    | cons p ps => exact ⟨p, ps, rfl⟩
  have hsel : ∀ r, selectedPair e r = selectLevel (p :: ps) r p := by
    intro r
    rw [selectedPair, hpe]
  rw [hpe] at hp1 hp2
  have hp1' : List.Pairwise (fun a b : ℚ × ℚ => a.1 ≤ b.1) (p :: p :: ps) := by
    refine List.pairwise_cons.mpr ⟨?_, hp1⟩
    intro b hb
    rcases List.mem_cons.mp hb with hb | hb
    · rw [hb]
    · exact (List.pairwise_cons.mp hp1).1 b hb
  have hp2' : List.Pairwise (fun a b : ℚ × ℚ => a.2 ≤ b.2) (p :: p :: ps) := by
    refine List.pairwise_cons.mpr ⟨?_, hp2⟩
    intro b hb
    rcases List.mem_cons.mp hb with hb | hb
    · rw [hb]
    · exact (List.pairwise_cons.mp hp2).1 b hb
  refine ⟨?_, ?_, ?_, ?_, ?_, ?_⟩
  · rw [get_atom_radius, get_atom_radius, hsel r1, hsel r2]
    exact selectLevel_mono (p :: ps) r1 r2 h p hp2'
  · rw [hsel r1, hpe]
    rcases List.mem_cons.mp (selectLevel_mem (p :: ps) r1 p) with h' | h'
    · rw [h']
      exact List.mem_cons_self _ _
    · exact h'
  · intro q hq hq1
    rw [hsel r1]
    rw [hpe] at hq
    exact selectLevel_max (p :: ps) r1 p hp1' q hq hq1
  · intro hle
    rw [hpe] at hle
    simp only [List.headD_cons] at hle
    rw [hsel r1]
    exact selectLevel_le_res (p :: ps) r1 p hle
  · intro hlt
    rw [hpe] at hlt
    simp only [List.headD_cons] at hlt
    rw [get_atom_radius, hsel r1, selectLevel, if_neg (not_le.mpr hlt)]
    rw [hpe]
    simp
  · intro hn
    have hpc := profileOf_fallback e hn
    rw [get_atom_radius, get_atom_radius, selectedPair, selectedPair, hpc]

/-- Witness for C6 at element `"SE"`, `r1 = 1/4` (below the smallest
threshold `1/2`), `r2 = 7/4`. -/
theorem radius_monotone_witness :
    (1 / 4 : ℚ) ≤ 7 / 4 ∧
    (get_atom_radius "SE" (1 / 4) ≤ get_atom_radius "SE" (7 / 4) ∧
     selectedPair "SE" (1 / 4) ∈ profileOf "SE" ∧
     (∀ q ∈ profileOf "SE", q.1 ≤ 1 / 4 → q.1 ≤ (selectedPair "SE" (1 / 4)).1) ∧
     (((profileOf "SE").headD (0, 0)).1 ≤ 1 / 4 →
       (selectedPair "SE" (1 / 4)).1 ≤ 1 / 4) ∧
     (1 / 4 < ((profileOf "SE").headD (0, 0)).1 →
       get_atom_radius "SE" (1 / 4) = ((profileOf "SE").headD (0, 0)).2) ∧
     ((ATOM_RADII_DATA.lookup (pyStrip (pyUpper "SE"))).isNone = true →
       get_atom_radius "SE" (1 / 4) = get_atom_radius "C" (1 / 4))) :=
  ⟨by norm_num, radius_monotone "SE" (1 / 4) (7 / 4) (by norm_num)⟩

theorem getD_eraseIdx_lt (row : List ℚ) (j j' : ℕ) (d : ℚ) (h : j' < j) :
    (row.eraseIdx j).getD j' d = row.getD j' d := by
  rw [List.getD_eq_getElem?_getD, List.getD_eq_getElem?_getD,
    List.getElem?_eraseIdx_of_lt row j j' h]

theorem getD_eraseIdx_ge (row : List ℚ) (j j' : ℕ) (d : ℚ) (h : j ≤ j') :
    (row.eraseIdx j).getD j' d = row.getD (j' + 1) d := by
  rw [List.getD_eq_getElem?_getD, List.getD_eq_getElem?_getD,
    List.getElem?_eraseIdx_of_ge row j j' h]

theorem dotL_cons (a b : ℚ) (xs ys : List ℚ) :
    dotL (a :: xs) (b :: ys) = a * b + dotL xs ys := by
  rw [dotL, dotL, List.zip_cons_cons, List.map_cons, List.sum_cons]

theorem dotL_split (j : ℕ) :
    ∀ (xs ys : List ℚ), j < xs.length → j < ys.length →
      dotL xs ys
        = dotL (xs.eraseIdx j) (ys.eraseIdx j) + xs.getD j 0 * ys.getD j 0 := by
  induction j with
  | zero =>
    intro xs ys hx hy
    cases xs with
    | nil => simp at hx
    | cons a xs' =>
      cases ys with
      | nil => simp at hy
      | cons b ys' =>
        rw [dotL_cons, List.eraseIdx_cons_zero, List.eraseIdx_cons_zero,
          List.getD_cons_zero, List.getD_cons_zero]
        ring
  | succ i ih =>
    intro xs ys hx hy
    cases xs with
    | nil => simp at hx
    | cons a xs' =>
      cases ys with
      | nil => simp at hy
      | cons b ys' =>
        rw [dotL_cons, List.eraseIdx_cons_succ, List.eraseIdx_cons_succ,
          dotL_cons, List.getD_cons_succ, List.getD_cons_succ]
        rw [ih xs' ys' (by simpa using hx) (by simpa using hy)]
        ring

theorem colAt_eraseCol_lt (st : List (List ℚ)) (j j' : ℕ) (h : j' < j) :
    colAt (eraseCol j st) j' = colAt st j' := by
  rw [colAt, colAt, eraseCol, List.map_map]
  apply List.map_congr_left
  intro row _
  exact getD_eraseIdx_lt row j j' 0 h

theorem colAt_eraseCol_ge (st : List (List ℚ)) (j j' : ℕ) (h : j ≤ j') :
    colAt (eraseCol j st) j' = colAt st (j' + 1) := by
  rw [colAt, colAt, eraseCol, List.map_map]
  apply List.map_congr_left
  intro row _
  exact getD_eraseIdx_ge row j j' 0 h

theorem map_range_eraseIdx (n j : ℕ) (hj : j < n) (f : ℕ → ℚ) :
    ((List.range n).map f).eraseIdx j
      = (List.range (n - 1)).map (fun i => if i < j then f i else f (i + 1)) := by
  apply List.ext_getElem?
  intro i
  by_cases hi : i < n - 1
  · by_cases hij : i < j
    · rw [List.getElem?_eraseIdx_of_lt _ _ _ hij]
      simp only [List.getElem?_map, List.getElem?_range hi,
        List.getElem?_range (show i < n by omega), Option.map_some']
      rw [if_pos hij]
    · rw [List.getElem?_eraseIdx_of_ge _ _ _ (by omega)]
      simp only [List.getElem?_map, List.getElem?_range hi,
        List.getElem?_range (show i + 1 < n by omega), Option.map_some']
      rw [if_neg hij]
  · rw [List.getElem?_eq_none, List.getElem?_eq_none]
    · simp only [List.length_map, List.length_range]
      omega
    · rw [List.length_eraseIdx]
      simp only [List.length_map, List.length_range]
      split <;> omega

theorem colBias_uniform (vals col : List ℚ)
    (h : (∀ x ∈ col, x = 1) ∨ (∀ x ∈ col, x = 0)) : colBias vals col = 0 := by
  simp only [colBias]
  rcases h with h | h
  · have ho : col.any (fun x => decide (x = 0)) = false := by
      rw [List.any_eq_false]
      intro x hx
      simp [h x hx]
    rw [ho, Bool.and_false, if_neg (by simp)]
  · have hp : col.any (fun x => decide (x = 1)) = false := by
      rw [List.any_eq_false]
      intro x hx
      simp [h x hx]
    rw [hp, Bool.false_and, if_neg (by simp)]

/-- C4: a status column that is uniformly 1 (owner present in every
member) or uniformly 0 (omitted in every member) gets bias exactly 0, and
the owner contributes nothing: deleting that column from the status matrix
leaves the solver's entire result — mean, variance and corrected value
vector — unchanged. -/
theorem degenerate_column (st : List (List ℚ)) (vals : List ℚ) (j : ℕ)
    (hrl : ∀ row ∈ st, row.length = (st.headD []).length)
    (hj : j < (st.headD []).length)
    (huni : (∀ row ∈ st, row.getD j 0 = 1) ∨ (∀ row ∈ st, row.getD j 0 = 0)) :
    colBias vals (colAt st j) = 0 ∧
    solve_voxel vals (some st) = solve_voxel vals (some (eraseCol j st)) := by
  have hbias0 : colBias vals (colAt st j) = 0 := by
    apply colBias_uniform
    rcases huni with h | h
    · left
      intro x hx
      obtain ⟨row, hrow, rfl⟩ := List.mem_map.mp hx
      exact h row hrow
    · right
      intro x hx
      obtain ⟨row, hrow, rfl⟩ := List.mem_map.mp hx
      exact h row hrow
  refine ⟨hbias0, ?_⟩
  obtain ⟨r0, rest, rfl⟩ : ∃ r0 rest, st = r0 :: rest := by
    cases st with
    | nil => simp at hj
    | cons r0 rest => exact ⟨r0, rest, rfl⟩
  set w := ((r0 :: rest).headD []).length with hw
  have hr0 : r0.length = w := hrl r0 (List.mem_cons_self _ _)
  have hw' : (((eraseCol j (r0 :: rest)).headD []).length) = w - 1 := by
    show (r0.eraseIdx j).length = w - 1
    rw [List.length_eraseIdx]
    rw [hr0]
    rw [if_pos (by omega)]
  have hbiasD :
      ((List.range w).map (fun j' => colBias vals (colAt (r0 :: rest) j'))).getD j 0
        = 0 := by
    rw [List.getD_eq_getElem?_getD, List.getElem?_map, List.getElem?_range hj]
    simpa using hbias0
  have hbias' :
      (List.range (((eraseCol j (r0 :: rest)).headD []).length)).map
          (fun j' => colBias vals (colAt (eraseCol j (r0 :: rest)) j'))
        = ((List.range w).map
            (fun j' => colBias vals (colAt (r0 :: rest) j'))).eraseIdx j := by
    rw [map_range_eraseIdx w j hj, hw']
    apply List.map_congr_left
    intro i hi
    have hi' : i < w - 1 := by simpa using hi
    by_cases hij : i < j
    · rw [colAt_eraseCol_lt _ _ _ hij, if_pos hij]
    · rw [colAt_eraseCol_ge _ _ _ (by omega), if_neg hij]
  have htb :
      (eraseCol j (r0 :: rest)).map (fun row => dotL row
          ((List.range (((eraseCol j (r0 :: rest)).headD []).length)).map
            (fun j' => colBias vals (colAt (eraseCol j (r0 :: rest)) j'))))
        = (r0 :: rest).map (fun row => dotL row
            ((List.range (((r0 :: rest).headD []).length)).map
              (fun j' => colBias vals (colAt (r0 :: rest) j')))) := by
    rw [hbias', eraseCol, List.map_map]
    apply List.map_congr_left
    intro row hrow
    show dotL (row.eraseIdx j)
        (((List.range w).map (fun j' => colBias vals (colAt (r0 :: rest) j'))).eraseIdx j)
      = dotL row ((List.range w).map (fun j' => colBias vals (colAt (r0 :: rest) j')))
    rw [dotL_split j row _ (by rw [hrl row hrow]; exact hj)
        (by simpa using hj), hbiasD, mul_zero, add_zero]
  simp only [solve_voxel]
  rw [htb]

/-- Witness for C4: a `2 × 2` status matrix whose column 0 is uniformly 1,
values `[10, 20]`. -/
theorem degenerate_column_witness :
    (∀ row ∈ ([[1, 5], [1, 7]] : List (List ℚ)),
        row.length = (([[1, 5], [1, 7]] : List (List ℚ)).headD []).length) ∧
    (colBias [10, 20] (colAt [[1, 5], [1, 7]] 0) = 0 ∧
     solve_voxel [10, 20] (some [[1, 5], [1, 7]])
       = solve_voxel [10, 20] (some (eraseCol 0 [[1, 5], [1, 7]]))) :=
  ⟨by decide,
   degenerate_column [[1, 5], [1, 7]] [10, 20] 0 (by decide) (by decide)
     (Or.inl (by decide))⟩
